import Mathlib

/-!
# Verification of the financial panel pipeline (`project.py`)

A shallow embedding of the pandas pipeline in `project.py`: the per
(gvkey, iid) security-returns series (`load_security_returns`), the
monthly/yearly FX lookups (`load_exrts` and the yearly rates built in
`load_fundamentals`), the market return series (`load_market_returns`),
the fundamentals consolidation (`load_fundamentals`), and the panel-level
sorting and outlier trimming.

Modelling conventions:
* exact rationals (`ℚ`) stand for floating-point numbers wherever the code
  only adds, subtracts, multiplies and divides; real numbers (`ℝ`) appear
  only where the code takes fractional powers;
* a missing value (`NaN`, produced by failed joins, `shift`, `pct_change`
  at the first row, or `0.0 / 0.0`) is `Option.none`; `dropna` keeps the
  rows whose tested cells are all `some`;
* `x / 0` with `x ≠ 0` is a signed infinity for floats, which `dropna`
  does *not* remove; the `FCell` type distinguishes the two for the beta
  column, where the distinction is load-bearing.  For plain `ℚ` division
  cells the embedding returns `some` of a junk value in that case, which
  matches the float behaviour as far as presence/absence is concerned;
* months (`data_ym`) are absolute month numbers in `ℤ`, so period
  differences (`.diff().n`) are subtraction.
-/

namespace Project

/-- One-period shift of a column (pandas `groupby(...).shift()`): position
`i + 1` of the result holds the value computed at position `i`, and position
`0` receives the null value `nv`. -/
def shift1 {α : Type} (nv : α) : List α → List α
  | [] => []
  | x :: xs => nv :: (x :: xs).dropLast

/-- Keep the first occurrence of each value, dropping later duplicates. -/
def dedupFirst {α : Type} [DecidableEq α] : List α → List α
  | [] => []
  | a :: rest => a :: (dedupFirst rest).filter (fun x => x != a)

/-- A floating-point cell as stored in the beta column: a finite value, a
signed infinity (`x / 0` with `x ≠ 0`), or NaN (`0 / 0`, failed window,
shifted-in hole).  `dropna` removes only the NaN case. -/
inductive FCell : Type
  | missing : FCell
  | posinf : FCell
  | neginf : FCell
  | val : ℝ → FCell

/-- Returns `true` exactly on the NaN cell, the one `dropna` removes. -/
def FCell.isMissing : FCell → Bool
  | .missing => true
  | _ => false

/-- IEEE division of finite values: `c / 0` is NaN when `c = 0` and a signed
infinity otherwise. -/
noncomputable def fdiv (c v : ℝ) : FCell :=
  if v = 0 then (if c = 0 then .missing else if 0 < c then .posinf else .neginf)
  else .val (c / v)

/-- A security-file row of one (gvkey, iid) series, after the `dropna` of the
raw price columns and the (gvkey, iid, data_ym) sort: `ym` is `data_ym` as an
absolute month number. -/
structure SecRow : Type where
  ym : ℤ
  curcdm : String
  prccm : ℚ
  ajexm : ℚ
  trfm : ℚ
  cshom : ℚ
deriving DecidableEq

/-- Forward fill (pandas `pad`): the last non-null value at or before `i`. -/
def padded (f : ℕ → Option ℚ) : ℕ → Option ℚ
  | 0 => f 0
  | i + 1 =>
    match f (i + 1) with
    | some v => some v
    | none => padded f i

/-- Pandas `groupby(...).pct_change()` with its default forward fill of nulls: at
position `i + 1` inside the series, the relative change of the filled column
against its previous position; null at position `0` and outside the series. -/
def pctChange (len : ℕ) (f : ℕ → Option ℚ) (i : ℕ) : Option ℚ :=
  match i with
  | 0 => none
  | j + 1 =>
    if j + 1 < len then
      match padded f j, padded f (j + 1) with
      | some a, some b => some ((b - a) / a)
      | _, _ => none
    else none

section SecuritySeries

variable (s : List SecRow) (fx : String → ℤ → Option (ℚ × ℚ)) (mkt : ℤ → Option ℚ)

/-- Column `adjclose = prccm / ajexm * trfm`. -/
def adjclose (i : ℕ) : Option ℚ := (s[i]?).map fun r => r.prccm / r.ajexm * r.trfm

/-- The `exratd_toUSD` column after the left merge of the monthly FX table on
`(curcdm, data_ym)`: null when the table has no entry for that key. -/
def usdRate (i : ℕ) : Option ℚ := (s[i]?).bind fun r => (fx r.curcdm r.ym).map Prod.fst

/-- The `exratd_toGBP` column after the left merge, as `usdRate`. -/
def gbpRate (i : ℕ) : Option ℚ := (s[i]?).bind fun r => (fx r.curcdm r.ym).map Prod.snd

/-- Column `local_ret`: per-series `pct_change` of `adjclose` (fractional units). -/
def local_ret (i : ℕ) : Option ℚ := pctChange s.length (adjclose s) i

/-- Column `USD_fxret`: per-series `pct_change` of `exratd_toUSD` (fractional). -/
def USD_fxret (i : ℕ) : Option ℚ := pctChange s.length (usdRate s fx) i

/-- Column `GBP_fxret`: per-series `pct_change` of `exratd_toGBP` (fractional). -/
def GBP_fxret (i : ℕ) : Option ℚ := pctChange s.length (gbpRate s fx) i

/-- Column `USD_ret = (1 + local_ret) * (1 + USD_fxret) - 1` (fractional). -/
def USD_ret (i : ℕ) : Option ℚ :=
  match local_ret s i, USD_fxret s fx i with
  | some l, some f => some ((1 + l) * (1 + f) - 1)
  | _, _ => none

/-- Column `GBP_ret = (1 + local_ret) * (1 + GBP_fxret) - 1` (fractional). -/
def GBP_ret (i : ℕ) : Option ℚ :=
  match local_ret s i, GBP_fxret s fx i with
  | some l, some f => some ((1 + l) * (1 + f) - 1)
  | _, _ => none

/-- Column `ret_mfreq`: elapsed months since the previous row of the series
(`data_ym.diff().n`); null at the first row. -/
def ret_mfreq (i : ℕ) : Option ℤ :=
  match i with
  | 0 => none
  | j + 1 =>
    match s[j]?, s[j + 1]? with
    | some r0, some r1 => some (r1.ym - r0.ym)
    | _, _ => none

/-- Real-number form of `(1 + r) ** (1 / g) - 1`. -/
noncomputable def stdMonthly (r : ℚ) (g : ℤ) : ℝ :=
  (1 + (r : ℝ)) ^ ((1 : ℝ) / (g : ℝ)) - 1

/-- Value of `(1 + r) ** (1 / g) - 1` under IEEE float semantics: for `g = 1` the
exponent is integral and the power is exact for every base; otherwise a
negative base raised to the non-integral exponent `1 / g` yields NaN. -/
noncomputable def mStd (r : ℚ) (g : ℤ) : Option ℝ :=
  if g = 1 then some ((r : ℚ) : ℝ)
  else if 1 + r < 0 then none
  else some (stdMonthly r g)

/-- Column `m_local_ret = (1 + local_ret) ** (1 / ret_mfreq) - 1` (fractional). -/
noncomputable def m_local_ret (i : ℕ) : Option ℝ :=
  match local_ret s i, ret_mfreq s i with
  | some r, some g => mStd r g
  | _, _ => none

/-- Column `m_USD_ret = (1 + USD_ret) ** (1 / ret_mfreq) - 1` (fractional). -/
noncomputable def m_USD_ret (i : ℕ) : Option ℝ :=
  match USD_ret s fx i, ret_mfreq s i with
  | some r, some g => mStd r g
  | _, _ => none

/-- Column `m_GBP_ret = (1 + GBP_ret) ** (1 / ret_mfreq) - 1` (fractional). -/
noncomputable def m_GBP_ret (i : ℕ) : Option ℝ :=
  match GBP_ret s fx i, ret_mfreq s i with
  | some r, some g => mStd r g
  | _, _ => none

/-- The `USD_fxret` column after the `*= 100` conversion to percent. -/
def USD_fxretPct (i : ℕ) : Option ℚ := (USD_fxret s fx i).map (· * 100)

/-- The `GBP_fxret` column after the `*= 100` conversion to percent. -/
def GBP_fxretPct (i : ℕ) : Option ℚ := (GBP_fxret s fx i).map (· * 100)

/-- The `m_local_ret` column after the `*= 100` conversion to percent; this
is the "return of interest" the beta window reads. -/
noncomputable def m_local_retPct (i : ℕ) : Option ℝ := (m_local_ret s i).map (· * 100)

/-- Column `local_mktval = cshom * prccm`, before the look-ahead shift. -/
def local_mktval_pre (i : ℕ) : Option ℚ := (s[i]?).map fun r => r.cshom * r.prccm

/-- Column `USD_mktval = local_mktval * exratd_toUSD`, before the look-ahead shift. -/
def USD_mktval_pre (i : ℕ) : Option ℚ :=
  match local_mktval_pre s i, usdRate s fx i with
  | some m, some x => some (m * x)
  | _, _ => none

/-- Column `GBP_mktval = local_mktval * exratd_toGBP`, before the look-ahead shift. -/
def GBP_mktval_pre (i : ℕ) : Option ℚ :=
  match local_mktval_pre s i, gbpRate s fx i with
  | some m, some x => some (m * x)
  | _, _ => none

/-- The `local_mktval` column after `groupby(level=["gvkey","iid"]).shift()`. -/
def local_mktvalL : List (Option ℚ) :=
  shift1 none ((List.range s.length).map (local_mktval_pre s))

/-- Cell access into the shifted `local_mktval` column. -/
def local_mktval (i : ℕ) : Option ℚ := (local_mktvalL s).getD i none

/-- The `USD_mktval` column after the look-ahead shift. -/
def USD_mktvalL : List (Option ℚ) :=
  shift1 none ((List.range s.length).map (USD_mktval_pre s fx))

/-- Cell access into the shifted `USD_mktval` column. -/
def USD_mktval (i : ℕ) : Option ℚ := (USD_mktvalL s fx).getD i none

/-- The `GBP_mktval` column after the look-ahead shift. -/
def GBP_mktvalL : List (Option ℚ) :=
  shift1 none ((List.range s.length).map (GBP_mktval_pre s fx))

/-- Cell access into the shifted `GBP_mktval` column. -/
def GBP_mktval (i : ℕ) : Option ℚ := (GBP_mktvalL s fx).getD i none

/-- The `m_mktret` column after the left join of the market return series on
`data_ym`: null when the series has no entry for the row's month. -/
def m_mktretCell (i : ℕ) : Option ℚ := (s[i]?).bind fun r => mkt r.ym

/-- The trailing window of 12 rows ending at `i` has a (non-null) market
return at every position. -/
def mktWindowFull (i : ℕ) : Prop :=
  11 ≤ i ∧ ∀ k < 12, (m_mktretCell s mkt (i - 11 + k)).isSome

/-- The trailing window of 12 rows ending at `i` is fully observed: both the
monthly standardized local return and the market return are non-null at all
12 positions. -/
def windowFull (i : ℕ) : Prop :=
  mktWindowFull s mkt i ∧ ∀ k < 12, (m_local_retPct s (i - 11 + k)).isSome

instance mktWindowFullDec (i : ℕ) : Decidable (mktWindowFull s mkt i) := by
  unfold mktWindowFull; infer_instance

noncomputable instance windowFullDec (i : ℕ) : Decidable (windowFull s mkt i) := by
  unfold windowFull; infer_instance

/-- Mean of a list of reals. -/
noncomputable def listMean (xs : List ℝ) : ℝ := xs.sum / xs.length

/-- Sample covariance (`ddof = 1`) of two aligned lists. -/
noncomputable def sampleCov (xs ys : List ℝ) : ℝ :=
  ((xs.zip ys).map fun p => (p.1 - listMean xs) * (p.2 - listMean ys)).sum /
    ((xs.length : ℝ) - 1)

/-- Sample variance (`ddof = 1`) of a list. -/
noncomputable def sampleVar (xs : List ℝ) : ℝ :=
  (xs.map fun x => (x - listMean xs) ^ 2).sum / ((xs.length : ℝ) - 1)

/-- The 12 monthly standardized local returns of the window ending at `i`
(junk default outside the guard). -/
noncomputable def betaWindowX (i : ℕ) : List ℝ :=
  (List.range 12).map fun k => (m_local_retPct s (i - 11 + k)).getD 0

/-- The 12 market returns of the window ending at `i`. -/
noncomputable def betaWindowY (i : ℕ) : List ℝ :=
  (List.range 12).map fun k => (((m_mktretCell s mkt (i - 11 + k)).getD 0 : ℚ) : ℝ)

/-- The rolling `cov(i,m)` column: pairwise sample covariance over the
trailing 12-row window, requiring all 12 pairs observed. -/
noncomputable def covIM (i : ℕ) : Option ℝ :=
  if windowFull s mkt i then some (sampleCov (betaWindowX s i) (betaWindowY s mkt i))
  else none

/-- The rolling `var(m)` column: sample variance of the market return over
the trailing 12-row window, requiring all 12 observations. -/
noncomputable def varM (i : ℕ) : Option ℝ :=
  if mktWindowFull s mkt i then some (sampleVar (betaWindowY s mkt i)) else none

/-- Column `beta = cov(i,m) / var(m)` before the look-ahead shift; NaN (missing)
when either rolling input is null. -/
noncomputable def betaPre (i : ℕ) : FCell :=
  match covIM s mkt i, varM s mkt i with
  | some c, some v => fdiv c v
  | _, _ => FCell.missing

/-- The beta column after `groupby(level=["gvkey","iid"]).shift()`. -/
noncomputable def betaL : List FCell :=
  shift1 FCell.missing ((List.range s.length).map (betaPre s mkt))

/-- Cell access into the shifted beta column. -/
noncomputable def beta (i : ℕ) : FCell := (betaL s mkt).getD i FCell.missing

/-- The final `dropna()`: a row is kept iff every tested cell is non-null. -/
noncomputable def rowKept (i : ℕ) : Bool :=
  decide (i < s.length) && (usdRate s fx i).isSome && (gbpRate s fx i).isSome &&
  (local_ret s i).isSome && (USD_fxret s fx i).isSome && (GBP_fxret s fx i).isSome &&
  (USD_ret s fx i).isSome && (GBP_ret s fx i).isSome && (ret_mfreq s i).isSome &&
  (m_USD_ret s fx i).isSome && (m_GBP_ret s fx i).isSome && (m_local_ret s i).isSome &&
  (local_mktval s i).isSome && (USD_mktval s fx i).isSome && (GBP_mktval s fx i).isSome &&
  (m_mktretCell s mkt i).isSome && !(beta s mkt i).isMissing

/-- The positions of the series that survive the final `dropna()`. -/
noncomputable def finalizedIdx : List ℕ :=
  (List.range s.length).filter (fun i => rowKept s fx mkt i)

end SecuritySeries

/-! ## `load_market_returns` -/

/-- Function `load_market_returns`: rows are `(data_ym, prccm)` in file order; the
output is `prccm.pct_change() * 100` keyed by each row's month, with the
first row (null change) removed by `dropna()`.  No monthly aggregation is
performed. -/
def load_market_returns (rows : List (ℤ × ℚ)) : List (ℤ × ℚ) :=
  (rows.zip rows.tail).map fun p => (p.2.1, ((p.2.2 - p.1.2) / p.1.2) * 100)

/-- The last price observed in month `m` (last in row order among the rows
of that month). -/
def lastPriceIn (rows : List (ℤ × ℚ)) (m : ℤ) : Option ℚ :=
  ((rows.filter fun p => p.1 == m).map Prod.snd).getLast?

/-- Modelled from the claim wording for C8: one return per month with price
observations except the first such month, each the percent change of the
month's last observed price against the previous such month's last observed
price. -/
def marketSpecOut (rows : List (ℤ × ℚ)) : List (ℤ × ℚ) :=
  ((dedupFirst (rows.map Prod.fst)).zip (dedupFirst (rows.map Prod.fst)).tail).map
    fun mm =>
      (mm.2,
        (((lastPriceIn rows mm.2).getD 0 - (lastPriceIn rows mm.1).getD 0) /
          (lastPriceIn rows mm.1).getD 0) * 100)

/-! ## `load_exrts` and the yearly income-statement rate of `load_fundamentals` -/

/-- A raw daily FX observation: currency code, date split as year / month /
day, and the two rates. -/
structure ExObs : Type where
  curd : String
  yr : ℤ
  mo : ℤ
  dy : ℤ
  toUSD : ℚ
  toGBP : ℚ
deriving DecidableEq

/-- The observations of currency `c` in month `(yy, mm)`. -/
def monthObs (obs : List ExObs) (c : String) (yy mm : ℤ) : List ExObs :=
  obs.filter fun o => o.curd == c && o.yr == yy && o.mo == mm

/-- Fold step selecting the later observation: a later or equal day wins, so
ties resolve to the later row, as `sort_values` (stable) + `groupby.last()`
do. -/
def pickLater (acc : Option ExObs) (r : ExObs) : Option ExObs :=
  match acc with
  | none => some r
  | some a => if a.dy ≤ r.dy then some r else some a

/-- The `m_exrts` monthly entry: the chronologically last observation of the
currency in the month (ties broken by input position). -/
def monthLast (obs : List ExObs) (c : String) (yy mm : ℤ) : Option ExObs :=
  (monthObs obs c yy mm).foldl pickLater none

/-- The distinct months of year `yy` holding at least one observation of
currency `c` — the months contributing a row to `m_exrts` for that year. -/
def monthsOfYear (obs : List ExObs) (c : String) (yy : ℤ) : List ℤ :=
  dedupFirst ((obs.filter fun o => o.curd == c && o.yr == yy).map ExObs.mo)

/-- Table `y_is_exrts`: the yearly income-statement conversion rate, the mean of
the monthly table's `exratd_toUSD` entries of that currency and year. -/
def y_is_toUSD (obs : List ExObs) (c : String) (yy : ℤ) : Option ℚ :=
  let ms := monthsOfYear obs c yy
  if ms = [] then none
  else some ((ms.map fun mm => ((monthLast obs c yy mm).map ExObs.toUSD).getD 0).sum / ms.length)

/-- Modelled from the claim wording for C7: the average of all exchange-rate
observations of the currency during the year. -/
def y_is_toUSD_claim (obs : List ExObs) (c : String) (yy : ℤ) : Option ℚ :=
  let xs := (obs.filter fun o => o.curd == c && o.yr == yy).map ExObs.toUSD
  if xs = [] then none else some (xs.sum / xs.length)

/-! ## `load_fundamentals` -/

/-- A raw fundamentals row; every payload field can be missing in the file. -/
structure FundRec : Type where
  gvkey : ℤ
  fiscalyear : ℤ
  curcd : Option String
  at_ : Option ℚ
  ceq : Option ℚ
  oiadp : Option ℚ
  revt : Option ℚ
deriving DecidableEq

/-- Lexicographic order on (gvkey, fiscalyear) keys, the `groupby` key
order. -/
def leZZ (a b : ℤ × ℤ) : Prop := a.1 < b.1 ∨ (a.1 = b.1 ∧ a.2 ≤ b.2)

instance leZZDec : DecidableRel leZZ := fun a b => by unfold leZZ; infer_instance

/-- The distinct (gvkey, fiscalyear) keys of the input, in ascending order
(pandas `groupby` sorts keys). -/
def fundKeys (input : List FundRec) : List (ℤ × ℤ) :=
  List.insertionSort leZZ (dedupFirst (input.map fun r => (r.gvkey, r.fiscalyear)))

/-- The input rows of one (gvkey, fiscalyear) group, in input order. -/
def fundGroup (input : List FundRec) (k : ℤ × ℤ) : List FundRec :=
  input.filter fun r => r.gvkey == k.1 && r.fiscalyear == k.2

/-- Pandas `groupby(["gvkey","fiscalyear"]).first()`: per column, the first
non-null entry of the group. -/
def consolidate (input : List FundRec) (k : ℤ × ℤ) : FundRec :=
  { gvkey := k.1
    fiscalyear := k.2
    curcd := (fundGroup input k).findSome? FundRec.curcd
    at_ := (fundGroup input k).findSome? FundRec.at_
    ceq := (fundGroup input k).findSome? FundRec.ceq
    oiadp := (fundGroup input k).findSome? FundRec.oiadp
    revt := (fundGroup input k).findSome? FundRec.revt }

/-- All payload fields present (the `dropna()` after consolidation). -/
def completeRec (r : FundRec) : Bool :=
  r.curcd.isSome && r.at_.isSome && r.ceq.isSome && r.oiadp.isSome && r.revt.isSome

/-- The consolidated frame: one row per key, keys ascending. -/
def consolidated (input : List FundRec) : List FundRec :=
  (fundKeys input).map (consolidate input)

/-- The consolidated frame after `dropna()`. -/
def afterDrop (input : List FundRec) : List FundRec :=
  (consolidated input).filter completeRec

/-- A fundamentals row after joining the yearly rates and applying them. -/
structure NormRec : Type where
  gvkey : ℤ
  fiscalyear : ℤ
  curcd : Option String
  at_ : Option ℚ
  ceq : Option ℚ
  oiadp : Option ℚ
  revt : Option ℚ
  bs_toUSD : Option ℚ
  is_toUSD : Option ℚ
deriving DecidableEq

/-- Multiplication with null propagation. -/
def omul (a b : Option ℚ) : Option ℚ :=
  match a, b with
  | some x, some y => some (x * y)
  | _, _ => none

/-- Join the yearly balance-sheet and income-statement rates on
`(curcd, fiscalyear)` and convert: `at`, `ceq` by the balance-sheet rate,
`oiadp`, `revt` by the income-statement rate. -/
def convertRec (bsRate isRate : String → ℤ → Option ℚ) (r : FundRec) : NormRec :=
  { gvkey := r.gvkey
    fiscalyear := r.fiscalyear
    curcd := r.curcd
    at_ := omul r.at_ (r.curcd.bind fun c => bsRate c r.fiscalyear)
    ceq := omul r.ceq (r.curcd.bind fun c => bsRate c r.fiscalyear)
    oiadp := omul r.oiadp (r.curcd.bind fun c => isRate c r.fiscalyear)
    revt := omul r.revt (r.curcd.bind fun c => isRate c r.fiscalyear)
    bs_toUSD := r.curcd.bind fun c => bsRate c r.fiscalyear
    is_toUSD := r.curcd.bind fun c => isRate c r.fiscalyear }

/-- The converted frame, rows still ordered by (gvkey, fiscalyear). -/
def convertedL (input : List FundRec) (bsRate isRate : String → ℤ → Option ℚ) :
    List NormRec :=
  (afterDrop input).map (convertRec bsRate isRate)

/-- The previous row of the same entity strictly before position `i`
(positions are frame order, fiscal years ascending within an entity). -/
def prevIdxSameG (L : List NormRec) (g : ℤ) : ℕ → Option ℕ
  | 0 => none
  | j + 1 =>
    if (L[j]?).map NormRec.gvkey = some g then some j else prevIdxSameG L g j

/-- Forward-filled converted `at` of entity `g` at or before position `i`
(pandas `pct_change` pads nulls within the group before differencing). -/
def padAt (L : List NormRec) (g : ℤ) : ℕ → Option ℚ
  | 0 => (L[0]?).bind fun r => if r.gvkey = g then r.at_ else none
  | i + 1 =>
    match (L[i + 1]?).bind fun r => if r.gvkey = g then r.at_ else none with
    | some v => some v
    | none => padAt L g i

/-- Column `investment`: per-entity `pct_change` of converted `at`; null at the
entity's first row, null (dropped as non-finite) on a zero denominator. -/
def investmentAt (L : List NormRec) (i : ℕ) : Option ℚ :=
  (L[i]?).bind fun r =>
    match prevIdxSameG L r.gvkey i with
    | none => none
    | some j =>
      match padAt L r.gvkey j, padAt L r.gvkey i with
      | some a, some b => if a = 0 then none else some ((b - a) / a)
      | _, _ => none

/-- Column `opm = oiadp / revt`; a zero denominator yields a non-finite value that
the final `dropna` (with `use_inf_as_null`) removes, modelled as null. -/
def opmAt (r : NormRec) : Option ℚ :=
  match r.oiadp, r.revt with
  | some o, some v => if v = 0 then none else some (o / v)
  | _, _ => none

/-- The final `dropna()` of `load_fundamentals` (with `use_inf_as_null`):
every retained column, including the joined rates, investment and opm, must
be present and finite. -/
def fundRowKept (L : List NormRec) (i : ℕ) : Bool :=
  match L[i]? with
  | none => false
  | some r =>
    r.curcd.isSome && r.at_.isSome && r.ceq.isSome && r.oiadp.isSome && r.revt.isSome &&
    r.bs_toUSD.isSome && r.is_toUSD.isSome && (investmentAt L i).isSome && (opmAt r).isSome

/-- The normalized fundamentals output rows. -/
def fundamentalsOut (input : List FundRec) (bsRate isRate : String → ℤ → Option ℚ) :
    List NormRec :=
  ((convertedL input bsRate isRate).enum.filter
    (fun p => fundRowKept (convertedL input bsRate isRate) p.1)).map Prod.snd

/-- The output row of one (gvkey, fiscalyear) pair, if any survived. -/
def outputRowFor (input : List FundRec) (bsRate isRate : String → ℤ → Option ℚ)
    (g y : ℤ) : Option NormRec :=
  (fundamentalsOut input bsRate isRate).find? fun r => r.gvkey == g && r.fiscalyear == y

/-- The first input record of the (gvkey, fiscalyear) pair, in input order. -/
def firstRecFor (input : List FundRec) (g y : ℤ) : Option FundRec :=
  (fundGroup input (g, y)).head?

/-- Modelled from the claim wording for C6: the pair's output row exists and
equals, field for field, the normalization of the first record encountered
in input order. -/
def fundKeepsFirst (input : List FundRec) (bsRate isRate : String → ℤ → Option ℚ)
    (g y : ℤ) : Prop :=
  outputRowFor input bsRate isRate g y =
    (firstRecFor input g y).map (convertRec bsRate isRate) ∧
  (outputRowFor input bsRate isRate g y).isSome

/-! ## `OutlierFilter` (lines 264–272 of `load_security_returns`) -/

/-- The value of column `c` in a finalized panel row. -/
def colVal (r : List ℚ) (c : ℕ) : ℚ := r.getD c 0

/-- One column of the finalized panel. -/
def colVals (panel : List (List ℚ)) (c : ℕ) : List ℚ := panel.map (colVal · c)

/-- Pandas `Series.quantile(p)` with the default linear interpolation on the
sorted values. -/
def quantile (xs : List ℚ) (p : ℚ) : ℚ :=
  let sorted := List.insertionSort (· ≤ ·) xs
  let h := p * ((xs.length : ℚ) - 1)
  let lo := (⌊h⌋).toNat
  sorted.getD lo 0 + (h - ⌊h⌋) * (sorted.getD (lo + 1) 0 - sorted.getD lo 0)

/-- The accumulated keep mask of the outlier loop: starting from `True`,
each designated column conjoins "strictly above its 0.1th percentile and
strictly below its 99.9th percentile", both computed on the whole panel. -/
def keepRow (panel : List (List ℚ)) (cols : List ℕ) (r : List ℚ) : Bool :=
  cols.foldl
    (fun acc c =>
      acc &&
        (decide (quantile (colVals panel c) (1 / 1000) < colVal r c) &&
          decide (colVal r c < quantile (colVals panel c) (999 / 1000))))
    true

/-- The outlier stage: applied only when the designated column list is
non-empty, it keeps the rows whose mask is true. -/
def outlierFilter (cols : List ℕ) (panel : List (List ℚ)) : List (List ℚ) :=
  if 0 < cols.length then panel.filter (keepRow panel cols) else panel

/-! ## Panel indexing (lines 141–148 of `load_security_returns`) -/

/-- A parsed security row before indexing; issue identifiers are modelled as
naturals (only their equality and order matter). -/
structure RawSec : Type where
  gvkey : ℤ
  iid : ℕ
  ym : ℤ
  prccm : ℚ
deriving DecidableEq

/-- The composite key `(gvkey, iid, data_ym)`. -/
def keyOf (r : RawSec) : ℤ × ℕ × ℤ := (r.gvkey, r.iid, r.ym)

/-- Lexicographic key order used by `sort_index()`. -/
def leKey (a b : RawSec) : Prop :=
  a.gvkey < b.gvkey ∨
    (a.gvkey = b.gvkey ∧ (a.iid < b.iid ∨ (a.iid = b.iid ∧ a.ym ≤ b.ym)))

instance leKeyDec : DecidableRel leKey := fun a b => by unfold leKey; infer_instance

/-- Pandas `set_index(["gvkey","iid","data_ym"]).sort_index()`: the rows sorted by
the composite key.  No deduplication is performed. -/
def panelOf (recs : List RawSec) : List RawSec := List.insertionSort leKey recs

/-- Modelled from the claim wording for C9: panel keys are unique and, for
any two rows of the same (gvkey, iid) series, periods increase with
position. -/
def panelKeysOk (recs : List RawSec) : Prop :=
  ((panelOf recs).map keyOf).Nodup ∧
    List.Pairwise (fun a b => a.gvkey = b.gvkey → a.iid = b.iid → a.ym < b.ym)
      (panelOf recs)

/-! ## Modelled from the claim wording for C10 -/

/-- Modelled from the claim wording for C10: every defined FX return of a
row is the percent change of the joined monthly rate of that row against the
joined monthly rate of the immediately preceding row. -/
def fxRetFromPrevRow (s : List SecRow) (fx : String → ℤ → Option (ℚ × ℚ)) : Prop :=
  ∀ i q,
    (USD_fxretPct s fx (i + 1) = some q →
      ∃ a b, usdRate s fx i = some a ∧ usdRate s fx (i + 1) = some b ∧
        q = (b - a) / a * 100) ∧
    (GBP_fxretPct s fx (i + 1) = some q →
      ∃ a b, gbpRate s fx i = some a ∧ gbpRate s fx (i + 1) = some b ∧
        q = (b - a) / a * 100)

/-! ## Concrete inputs used by witnesses and counterexamples -/

/-- A two-row series: months 0 and 2 (a gap of two periods), adjusted close
moving from 100 to 121. -/
def sW1 : List SecRow :=
  [⟨0, "USD", 100, 1, 1, 1⟩, ⟨2, "USD", 121, 1, 1, 1⟩]

/-- A constant FX table: every currency and month rates 1 / 1. -/
def fx1 : String → ℤ → Option (ℚ × ℚ) := fun _ _ => some (1, 1)

/-- A constant market return series: 5 percent every month. -/
def mkt1 : ℤ → Option ℚ := fun _ => some 5

/-- Twelve consecutive months of constant prices. -/
def sW5 : List SecRow :=
  (List.range 12).map fun k : ℕ => ⟨(k : ℤ), "USD", 1, 1, 1, 1⟩

/-- Three consecutive months of one currency. -/
def sC10 : List SecRow :=
  [⟨0, "EUR", 1, 1, 1, 1⟩, ⟨1, "EUR", 1, 1, 1, 1⟩, ⟨2, "EUR", 1, 1, 1, 1⟩]

/-- An FX table with no observation in month 1: rate 2 in month 0, missing
in month 1, rate 8 in month 2. -/
def fxC10 : String → ℤ → Option (ℚ × ℚ) := fun _ ym =>
  if ym = 0 then some (2, 2) else if ym = 2 then some (8, 8) else none

/-- A two-row series whose currency code changes between the rows. -/
def sX10 : List SecRow :=
  [⟨0, "EUR", 1, 1, 1, 1⟩, ⟨1, "JPY", 1, 1, 1, 1⟩]

/-- An FX table giving EUR the rates 2 / 3 and JPY the rates 4 / 6. -/
def fxX10 : String → ℤ → Option (ℚ × ℚ) := fun c _ =>
  if c = "EUR" then some (2, 3) else if c = "JPY" then some (4, 6) else none

/-- Two price observations in the same month. -/
def mrowsDup : List (ℤ × ℚ) := [(0, 100), (0, 110)]

/-- One price observation in each of two months. -/
def mrowsOk : List (ℤ × ℚ) := [(0, 100), (1, 110)]

/-- A complete fundamentals record for fiscal year 2000. -/
def rec2000 : FundRec := ⟨1, 2000, some "USD", some 100, some 50, some 30, some 70⟩

/-- First 2001 report: revenue missing, assets 110. -/
def recA : FundRec := ⟨1, 2001, some "USD", some 110, some 55, some 4, none⟩

/-- Second 2001 report: revenue 5, assets 999. -/
def recB : FundRec := ⟨1, 2001, some "USD", some 999, some 77, some 88, some 5⟩

/-- Fundamentals input with duplicate 2001 reports for entity 1. -/
def cInput : List FundRec := [rec2000, recA, recB]

/-- A constant rate table: every currency and year converts at 1. -/
def ratesOne : String → ℤ → Option ℚ := fun _ _ => some 1

/-- The consolidated 2001 record: assets from the first report, revenue from
the second. -/
def cCons2001 : FundRec := ⟨1, 2001, some "USD", some 110, some 55, some 4, some 5⟩

/-- The normalized 2000 row under unit rates. -/
def cNorm2000 : NormRec := ⟨1, 2000, some "USD", some 100, some 50, some 30, some 70, some 1, some 1⟩

/-- The normalized 2001 row under unit rates. -/
def cNorm2001 : NormRec := ⟨1, 2001, some "USD", some 110, some 55, some 4, some 5, some 1, some 1⟩

/-- FX observations: two January observations (rates 1 then 3) and one
February observation (rate 5), all EUR 2020. -/
def cObs : List ExObs :=
  [⟨"EUR", 2020, 1, 5, 1, 1⟩, ⟨"EUR", 2020, 1, 20, 3, 3⟩, ⟨"EUR", 2020, 2, 10, 5, 5⟩]

/-- Two security rows with an identical (gvkey, iid, data_ym) key. -/
def recsDup : List RawSec := [⟨1, 1, 0, 100⟩, ⟨1, 1, 0, 101⟩]

/-- Two security rows of one series with distinct months. -/
def recsOk : List RawSec := [⟨1, 1, 0, 100⟩, ⟨1, 1, 1, 101⟩]

/-- A one-column panel with three rows. -/
def panel3 : List (List ℚ) := [[1], [2], [3]]

/-! ## Generic helper lemmas -/

theorem shift1_getD_succ {α : Type} (nv : α) (xs : List α) (i : ℕ)
    (h : i + 1 < xs.length) : (shift1 nv xs).getD (i + 1) nv = xs.getD i nv := by
  match xs with
  | [] => simp at h
  | x :: xs' =>
    show ((x :: xs').dropLast).getD i nv = (x :: xs').getD i nv
    have hl : i < ((x :: xs').dropLast).length := by
      simp only [List.length_dropLast, List.length_cons] at h ⊢; omega
    have hl2 : i < (x :: xs').length := by simp only [List.length_cons] at h ⊢; omega
    rw [List.getD_eq_getElem _ _ hl, List.getElem_dropLast, List.getD_eq_getElem _ _ hl2]

theorem shift1_getD_zero {α : Type} (nv : α) (xs : List α) (h : xs ≠ []) :
    (shift1 nv xs).getD 0 nv = nv := by
  cases xs with
  | nil => exact absurd rfl h
  | cons x xs' => rfl

theorem rangeMap_getD {α : Type} (n : ℕ) (f : ℕ → α) (d : α) (i : ℕ) (h : i < n) :
    ((List.range n).map f).getD i d = f i := by
  rw [List.getD_eq_getElem _ _ (by simpa using h)]
  simp

theorem shiftCol_succ {α : Type} (nv : α) (n : ℕ) (f : ℕ → α) (i : ℕ) (h : i + 1 < n) :
    (shift1 nv ((List.range n).map f)).getD (i + 1) nv = f i := by
  rw [shift1_getD_succ nv _ i (by simpa using h), rangeMap_getD _ _ _ _ (by omega)]

theorem shiftCol_zero {α : Type} (nv : α) (n : ℕ) (f : ℕ → α) (h : 0 < n) :
    (shift1 nv ((List.range n).map f)).getD 0 nv = nv := by
  apply shift1_getD_zero
  intro he
  have := congrArg List.length he
  simp at this
  omega

theorem padded_of_isSome (f : ℕ → Option ℚ) (i : ℕ) (h : (f i).isSome) :
    padded f i = f i := by
  cases i with
  | zero => rfl
  | succ j =>
    obtain ⟨v, hv⟩ := Option.isSome_iff_exists.mp h
    simp [padded, hv]

/-- Claim C1: for every series row whose period gap is defined, compounding
the monthly-standardized return back over the gap, in fractional units,
recovers the unstandardized return — for the local, USD and GBP returns. -/
theorem msr_reconstruction (s : List SecRow) (fx : String → ℤ → Option (ℚ × ℚ))
    (i : ℕ) (g : ℤ) (hgap : ret_mfreq s i = some g) (hg : 0 < g) :
    (∀ r m, local_ret s i = some r → m_local_ret s i = some m →
      (1 + m) ^ ((g : ℤ) : ℝ) - 1 = (r : ℝ)) ∧
    (∀ r m, USD_ret s fx i = some r → m_USD_ret s fx i = some m →
      (1 + m) ^ ((g : ℤ) : ℝ) - 1 = (r : ℝ)) ∧
    (∀ r m, GBP_ret s fx i = some r → m_GBP_ret s fx i = some m →
      (1 + m) ^ ((g : ℤ) : ℝ) - 1 = (r : ℝ)) := by
  have core : ∀ (r : ℚ) (m : ℝ), mStd r g = some m →
      (1 + m) ^ ((g : ℤ) : ℝ) - 1 = (r : ℝ) := by
    intro r m hm
    unfold mStd at hm
    by_cases h1 : g = 1
    · subst h1
      rw [if_pos rfl] at hm
      have hm' : m = (r : ℝ) := (Option.some.inj hm).symm
      subst hm'
      norm_num [Real.rpow_one]
    · rw [if_neg h1] at hm
      by_cases h2 : 1 + r < 0
      · rw [if_pos h2] at hm; simp at hm
      · rw [if_neg h2] at hm
        have hm' : m = stdMonthly r g := (Option.some.inj hm).symm
        subst hm'
        unfold stdMonthly
        have hx : (0 : ℝ) ≤ 1 + (r : ℝ) := by
          have h3 : (0 : ℚ) ≤ 1 + r := not_lt.mp h2
          exact_mod_cast h3
        have hgne : ((g : ℤ) : ℝ) ≠ 0 := by
          simp only [ne_eq, Int.cast_eq_zero]
          exact hg.ne'
        have hre : 1 + ((1 + (r : ℝ)) ^ ((1 : ℝ) / ((g : ℤ) : ℝ)) - 1) =
            (1 + (r : ℝ)) ^ ((1 : ℝ) / ((g : ℤ) : ℝ)) := by ring
        rw [hre, ← Real.rpow_mul hx, one_div, inv_mul_cancel₀ hgne, Real.rpow_one]
        ring
  refine ⟨?_, ?_, ?_⟩
  · intro r m hr hm
    unfold m_local_ret at hm
    rw [hr, hgap] at hm
    exact core r m hm
  · intro r m hr hm
    unfold m_USD_ret at hm
    rw [hr, hgap] at hm
    exact core r m hm
  · intro r m hr hm
    unfold m_GBP_ret at hm
    rw [hr, hgap] at hm
    exact core r m hm

/-- Witness for C1 on a concrete two-row series: gap 2, local return 21 %,
with the reconstruction identity instantiated at the standardized value. -/
theorem msr_reconstruction_witness :
    ret_mfreq sW1 1 = some 2 ∧ (0 : ℤ) < 2 ∧
      local_ret sW1 1 = some (21 / 100) ∧
      m_local_ret sW1 1 = some (stdMonthly (21 / 100) 2) ∧
      (1 + stdMonthly (21 / 100) 2) ^ ((2 : ℤ) : ℝ) - 1 = ((21 / 100 : ℚ) : ℝ) := by
  have hgap : ret_mfreq sW1 1 = some 2 := by decide
  have hr : local_ret sW1 1 = some (21 / 100) := by
    norm_num [local_ret, pctChange, padded, adjclose, sW1]
  have hm : m_local_ret sW1 1 = some (stdMonthly (21 / 100) 2) := by
    unfold m_local_ret
    rw [hr, hgap]
    show mStd (21 / 100) 2 = some (stdMonthly (21 / 100) 2)
    unfold mStd
    rw [if_neg (by norm_num), if_neg (by norm_num)]
  exact ⟨hgap, by decide, hr, hm,
    (msr_reconstruction sW1 fx1 1 2 hgap (by decide)).1 (21 / 100) _ hr hm⟩

/-- Claim C2: each look-ahead-guarded column (the three market values and
beta) records at position `i + 1` exactly the value computed at position
`i` of the same series, and is null at the first position. -/
theorem lookahead_shift (s : List SecRow) (fx : String → ℤ → Option (ℚ × ℚ))
    (mkt : ℤ → Option ℚ) (i : ℕ) :
    (i + 1 < s.length →
      local_mktval s (i + 1) = local_mktval_pre s i ∧
      USD_mktval s fx (i + 1) = USD_mktval_pre s fx i ∧
      GBP_mktval s fx (i + 1) = GBP_mktval_pre s fx i ∧
      beta s mkt (i + 1) = betaPre s mkt i) ∧
    (0 < s.length →
      local_mktval s 0 = none ∧ USD_mktval s fx 0 = none ∧
      GBP_mktval s fx 0 = none ∧ beta s mkt 0 = FCell.missing) := by
  constructor
  · intro h
    refine ⟨?_, ?_, ?_, ?_⟩
    · exact shiftCol_succ none s.length _ i h
    · exact shiftCol_succ none s.length _ i h
    · exact shiftCol_succ none s.length _ i h
    · exact shiftCol_succ FCell.missing s.length _ i h
  · intro h
    refine ⟨?_, ?_, ?_, ?_⟩
    · exact shiftCol_zero none s.length _ h
    · exact shiftCol_zero none s.length _ h
    · exact shiftCol_zero none s.length _ h
    · exact shiftCol_zero FCell.missing s.length _ h

/-- Witness for C2 on the concrete two-row series. -/
theorem lookahead_shift_witness :
    (0 + 1 < sW1.length) ∧
      local_mktval sW1 1 = local_mktval_pre sW1 0 ∧
      beta sW1 mkt1 1 = betaPre sW1 mkt1 0 ∧
      local_mktval sW1 0 = none := by
  refine ⟨by decide, ?_, ?_, ?_⟩
  · exact ((lookahead_shift sW1 fx1 mkt1 0).1 (by decide)).1
  · exact ((lookahead_shift sW1 fx1 mkt1 0).1 (by decide)).2.2.2
  · exact ((lookahead_shift sW1 fx1 mkt1 0).2 (by decide)).1

/-! ## Sample covariance / variance lemmas for C3 and C5 -/

theorem sum_sq_zero (c : ℝ) (l : List ℝ)
    (h : (l.map fun x => (x - c) ^ 2).sum = 0) : ∀ x ∈ l, x = c := by
  induction l with
  | nil => simp
  | cons y l ih =>
    simp only [List.map_cons, List.sum_cons] at h
    have h1 : 0 ≤ (y - c) ^ 2 := sq_nonneg _
    have h2 : 0 ≤ (l.map fun x => (x - c) ^ 2).sum := by
      apply List.sum_nonneg
      intro z hz
      obtain ⟨x, _, rfl⟩ := List.mem_map.mp hz
      exact sq_nonneg _
    have hz := (add_eq_zero_iff_of_nonneg h1 h2).mp h
    intro x hx
    rcases List.mem_cons.mp hx with rfl | hx'
    · have := (pow_eq_zero_iff (two_ne_zero)).mp hz.1
      linarith [sub_eq_zero.mp this]
    · exact ih hz.2 x hx'

theorem sampleVar_eq_zero_forall (ys : List ℝ) (hlen : 1 < ys.length)
    (h : sampleVar ys = 0) : ∀ y ∈ ys, y = listMean ys := by
  unfold sampleVar at h
  have hden : ((ys.length : ℝ) - 1) ≠ 0 := by
    have h1 : (1 : ℝ) < ys.length := by exact_mod_cast hlen
    intro he
    linarith
  rcases div_eq_zero_iff.mp h with hs | hd
  · exact sum_sq_zero _ _ hs
  · exact absurd hd hden

theorem sampleCov_eq_zero (xs ys : List ℝ) (hlen : 1 < ys.length)
    (h : sampleVar ys = 0) : sampleCov xs ys = 0 := by
  have hy := sampleVar_eq_zero_forall ys hlen h
  unfold sampleCov
  have hterm : ∀ p ∈ xs.zip ys, (p.1 - listMean xs) * (p.2 - listMean ys) = 0 := by
    intro p hp
    have hp2 : p.2 ∈ ys := (List.of_mem_zip hp).2
    rw [hy p.2 hp2, sub_self, mul_zero]
  have hsum : ((xs.zip ys).map fun p => (p.1 - listMean xs) * (p.2 - listMean ys)).sum = 0 := by
    apply List.sum_eq_zero
    intro z hz
    obtain ⟨p, hp, rfl⟩ := List.mem_map.mp hz
    exact hterm p hp
  rw [hsum, zero_div]

theorem sampleVar_replicate (n : ℕ) (c : ℝ) (hn : n ≠ 0) :
    sampleVar (List.replicate n c) = 0 := by
  have hmean : listMean (List.replicate n c) = c := by
    unfold listMean
    rw [List.sum_replicate, nsmul_eq_mul, List.length_replicate]
    have hne : (n : ℝ) ≠ 0 := by exact_mod_cast hn
    field_simp
  unfold sampleVar
  rw [hmean]
  simp [List.map_replicate, List.sum_replicate]

/-- Claim C3: the pre-shift beta is defined only where the trailing window
of 12 rows is fully observed in both the monthly standardized local return
and the market return; any row with an incomplete window has missing beta;
and a row whose (shifted) beta column is missing cannot survive the final
`dropna`, in which beta is a required column. -/
theorem beta_window_definedness (s : List SecRow) (fx : String → ℤ → Option (ℚ × ℚ))
    (mkt : ℤ → Option ℚ) (i : ℕ) :
    (betaPre s mkt i ≠ FCell.missing → windowFull s mkt i) ∧
    (¬ windowFull s mkt i → betaPre s mkt i = FCell.missing) ∧
    ((beta s mkt i).isMissing = true → i ∉ finalizedIdx s fx mkt) := by
  have hb : ¬ windowFull s mkt i → betaPre s mkt i = FCell.missing := by
    intro hw
    have hc : covIM s mkt i = none := by unfold covIM; rw [if_neg hw]
    unfold betaPre
    rw [hc]
  refine ⟨?_, hb, ?_⟩
  · intro hne
    by_contra hw
    exact hne (hb hw)
  · intro hbm hin
    have hmem := List.mem_filter.mp hin
    have hr : rowKept s fx mkt i = true := hmem.2
    unfold rowKept at hr
    simp only [Bool.and_eq_true] at hr
    rw [hbm] at hr
    simp at hr

/-- Witness for C3 on the concrete two-row series: an incomplete window
yields missing beta, and the row is absent from the finalized positions. -/
theorem beta_window_definedness_witness :
    ¬ windowFull sW1 mkt1 1 ∧ betaPre sW1 mkt1 1 = FCell.missing ∧
      1 ∉ finalizedIdx sW1 fx1 mkt1 := by
  have hw1 : ¬ windowFull sW1 mkt1 1 := fun h => absurd h.1.1 (by omega)
  have hw0 : ¬ windowFull sW1 mkt1 0 := fun h => absurd h.1.1 (by omega)
  have hpre1 : betaPre sW1 mkt1 1 = FCell.missing :=
    (beta_window_definedness sW1 fx1 mkt1 1).2.1 hw1
  have hpre0 : betaPre sW1 mkt1 0 = FCell.missing :=
    (beta_window_definedness sW1 fx1 mkt1 0).2.1 hw0
  have hbeta : beta sW1 mkt1 1 = betaPre sW1 mkt1 0 :=
    shiftCol_succ FCell.missing sW1.length _ 0 (by decide)
  refine ⟨hw1, hpre1, ?_⟩
  apply (beta_window_definedness sW1 fx1 mkt1 1).2.2
  rw [hbeta, hpre0]
  rfl

/-- Claim C5: a zero rolling market variance makes beta NaN (missing), not a
fatal error; pre-shift beta is never an infinity, because a zero sample
variance of the market window forces a zero sample covariance; and every
finalized row passes the `dropna` test on all retained columns. -/
theorem beta_zero_variance (s : List SecRow) (fx : String → ℤ → Option (ℚ × ℚ))
    (mkt : ℤ → Option ℚ) (i : ℕ) :
    (varM s mkt i = some 0 → betaPre s mkt i = FCell.missing) ∧
    (betaPre s mkt i ≠ FCell.posinf ∧ betaPre s mkt i ≠ FCell.neginf) ∧
    (i ∈ finalizedIdx s fx mkt → rowKept s fx mkt i = true) := by
  have hY : (betaWindowY s mkt i).length = 12 := by simp [betaWindowY]
  have key : sampleVar (betaWindowY s mkt i) = 0 →
      sampleCov (betaWindowX s i) (betaWindowY s mkt i) = 0 := by
    intro hv
    exact sampleCov_eq_zero _ _ (by rw [hY]; norm_num) hv
  refine ⟨?_, ?_, ?_⟩
  · intro hv0
    have hmw : mktWindowFull s mkt i := by
      by_contra hmw
      unfold varM at hv0
      rw [if_neg hmw] at hv0
      simp at hv0
    have hvv : sampleVar (betaWindowY s mkt i) = 0 := by
      unfold varM at hv0
      rw [if_pos hmw] at hv0
      exact Option.some.inj hv0
    by_cases hw : windowFull s mkt i
    · have hc : covIM s mkt i = some (sampleCov (betaWindowX s i) (betaWindowY s mkt i)) := by
        unfold covIM; rw [if_pos hw]
      have hv : varM s mkt i = some (sampleVar (betaWindowY s mkt i)) := by
        unfold varM; rw [if_pos hmw]
      unfold betaPre
      rw [hc, hv]
      show fdiv _ _ = FCell.missing
      unfold fdiv
      rw [if_pos hvv, if_pos (key hvv)]
    · have hc : covIM s mkt i = none := by unfold covIM; rw [if_neg hw]
      unfold betaPre
      rw [hc]
  · have hform : betaPre s mkt i = FCell.missing ∨ ∃ x, betaPre s mkt i = FCell.val x := by
      by_cases hw : windowFull s mkt i
      · have hc : covIM s mkt i = some (sampleCov (betaWindowX s i) (betaWindowY s mkt i)) := by
          unfold covIM; rw [if_pos hw]
        have hv : varM s mkt i = some (sampleVar (betaWindowY s mkt i)) := by
          unfold varM; rw [if_pos hw.1]
        unfold betaPre
        rw [hc, hv]
        show fdiv _ _ = FCell.missing ∨ ∃ x, fdiv _ _ = FCell.val x
        unfold fdiv
        by_cases hz : sampleVar (betaWindowY s mkt i) = 0
        · left
          rw [if_pos hz, if_pos (key hz)]
        · right
          exact ⟨_, by rw [if_neg hz]⟩
      · left
        have hc : covIM s mkt i = none := by unfold covIM; rw [if_neg hw]
        unfold betaPre
        rw [hc]
    rcases hform with h | ⟨x, h⟩ <;> rw [h] <;>
      exact ⟨fun hh => FCell.noConfusion hh, fun hh => FCell.noConfusion hh⟩
  · intro hin
    exact (List.mem_filter.mp hin).2

/-- Witness for C5: twelve rows with a constant market return give a zero
rolling variance at position 11, and the theorem makes its beta missing. -/
theorem beta_zero_variance_witness :
    varM sW5 mkt1 11 = some 0 ∧ betaPre sW5 mkt1 11 = FCell.missing := by
  have hcell : ∀ k, k < 12 → m_mktretCell sW5 mkt1 k = some 5 := by
    intro k hk
    have hg : sW5[k]? = some ⟨(k : ℤ), "USD", 1, 1, 1, 1⟩ := by
      unfold sW5
      rw [List.getElem?_map, List.getElem?_range hk]
      rfl
    simp [m_mktretCell, mkt1, hg]
  have hY : betaWindowY sW5 mkt1 11 = List.replicate 12 ((5 : ℚ) : ℝ) := by
    unfold betaWindowY
    rw [List.map_congr_left (g := fun _ => ((5 : ℚ) : ℝ)) ?_]
    · rw [List.map_const', List.length_range]
    · intro k hk
      have hk12 : k < 12 := List.mem_range.mp hk
      rw [show 11 - 11 + k = k from by omega, hcell k hk12]
      rfl
  have hv : varM sW5 mkt1 11 = some 0 := by
    unfold varM
    rw [if_pos ?_, hY, sampleVar_replicate 12 _ (by norm_num)]
    constructor
    · omega
    · intro k hk
      rw [show 11 - 11 + k = k from by omega, hcell k hk]
      rfl
  exact ⟨hv, (beta_zero_variance sW5 fx1 mkt1 11).1 hv⟩

theorem pctChange_succ (len : ℕ) (f : ℕ → Option ℚ) (j : ℕ) (h : j + 1 < len)
    (a b : ℚ) (hfa : f j = some a) (hfb : f (j + 1) = some b)
    (hsa : padded f j = f j) (hsb : padded f (j + 1) = f (j + 1)) :
    pctChange len f (j + 1) = some ((b - a) / a) := by
  show (if j + 1 < len then
      match padded f j, padded f (j + 1) with
      | some x, some y => some ((y - x) / x)
      | _, _ => none
    else none) = some ((b - a) / a)
  rw [if_pos h, hsa, hsb, hfa, hfb]

/-- Counterexample to C10 as stated: with the middle month's FX join missing,
the later row's FX return is computed against the forward-filled rate from
two rows back, not against the (missing) previous row's rate. -/
theorem fx_return_prev_row_refuted : ¬ fxRetFromPrevRow sC10 fxC10 := by
  intro h
  have h1 : USD_fxretPct sC10 fxC10 2 = some 300 := by
    norm_num [USD_fxretPct, USD_fxret, pctChange, padded, usdRate, sC10, fxC10]
  obtain ⟨a, b, ha, hb, he⟩ := (h 1 300).1 h1
  have hnone : usdRate sC10 fxC10 1 = none := by decide
  rw [hnone] at ha
  exact Option.noConfusion ha

/-- Claim C10 (amended): whenever the joined monthly FX rates of a row and
of its predecessor are both present, the row's FX returns are their percent
change, with no reference to the currency codes that produced the rates. -/
theorem fx_return_adjacent_rates (s : List SecRow) (fx : String → ℤ → Option (ℚ × ℚ))
    (i : ℕ) (a b c d : ℚ)
    (ha : usdRate s fx i = some a) (hb : usdRate s fx (i + 1) = some b)
    (hc : gbpRate s fx i = some c) (hd : gbpRate s fx (i + 1) = some d) :
    USD_fxretPct s fx (i + 1) = some ((b - a) / a * 100) ∧
    GBP_fxretPct s fx (i + 1) = some ((d - c) / c * 100) := by
  have hlen : i + 1 < s.length := by
    unfold usdRate at hb
    cases hs : s[i + 1]? with
    | none => rw [hs] at hb; simp at hb
    | some r => exact (List.getElem?_eq_some.mp hs).1
  constructor
  · unfold USD_fxretPct USD_fxret
    rw [pctChange_succ s.length (usdRate s fx) i hlen a b ha hb
      (padded_of_isSome _ _ (by rw [ha]; rfl)) (padded_of_isSome _ _ (by rw [hb]; rfl))]
    rfl
  · unfold GBP_fxretPct GBP_fxret
    rw [pctChange_succ s.length (gbpRate s fx) i hlen c d hc hd
      (padded_of_isSome _ _ (by rw [hc]; rfl)) (padded_of_isSome _ _ (by rw [hd]; rfl))]
    rfl

/-- Witness for C10 (amended) on a series whose currency changes between the
two rows: both FX returns are defined and compare the two currencies'
rates. -/
theorem fx_return_adjacent_rates_witness :
    (sX10[0]?).map SecRow.curcdm ≠ (sX10[1]?).map SecRow.curcdm ∧
      USD_fxretPct sX10 fxX10 1 = some ((4 - 2) / 2 * 100) ∧
      GBP_fxretPct sX10 fxX10 1 = some ((6 - 3) / 3 * 100) := by
  have h := fx_return_adjacent_rates sX10 fxX10 0 2 4 3 6
    (by decide) (by decide) (by decide) (by decide)
  exact ⟨by decide, h.1, h.2⟩

/-! ## Outlier filter (C4) -/

theorem foldl_and_eq {α : Type} (f : α → Bool) (l : List α) (b : Bool) :
    l.foldl (fun acc c => acc && f c) b = (b && l.all f) := by
  induction l generalizing b with
  | nil => simp
  | cons x l ih => simp [List.foldl_cons, ih, Bool.and_assoc]

/-- Claim C4: with a non-empty designated-column list, a row survives the
outlier stage iff it is a panel row and, for every designated column, its
value lies strictly between the panel-wide 0.1th and 99.9th percentiles;
equality with either bound excludes it. -/
theorem outlier_filter_strict (cols : List ℕ) (panel : List (List ℚ)) (h : cols ≠ [])
    (r : List ℚ) :
    r ∈ outlierFilter cols panel ↔
      r ∈ panel ∧ ∀ c ∈ cols,
        quantile (colVals panel c) (1 / 1000) < colVal r c ∧
        colVal r c < quantile (colVals panel c) (999 / 1000) := by
  unfold outlierFilter
  rw [if_pos (List.length_pos.mpr h), List.mem_filter]
  apply and_congr_right
  intro _
  unfold keepRow
  rw [foldl_and_eq, Bool.true_and, List.all_eq_true]
  constructor
  · intro hall c hc
    have hcc := hall c hc
    simp only [Bool.and_eq_true, decide_eq_true_eq] at hcc
    exact hcc
  · intro hall c hc
    simp only [Bool.and_eq_true, decide_eq_true_eq]
    exact hall c hc

/-- Witness for C4: on a three-row one-column panel, the middle row lies
strictly inside both percentile bounds and survives. -/
theorem outlier_filter_strict_witness :
    ([0] : List ℕ) ≠ [] ∧ [2] ∈ outlierFilter [0] panel3 := by
  refine ⟨by decide, ?_⟩
  apply (outlier_filter_strict [0] panel3 (by decide) [2]).mpr
  refine ⟨by decide, ?_⟩
  intro c hc
  have hc0 : c = 0 := by simpa using hc
  subst hc0
  have hfl : (⌊(1 / 1000 : ℚ) * ((3 : ℚ) - 1)⌋) = 0 := by
    norm_num [Int.floor_eq_iff]
  have hfu : (⌊(999 / 1000 : ℚ) * ((3 : ℚ) - 1)⌋) = 1 := by
    norm_num [Int.floor_eq_iff]
  constructor
  · norm_num [quantile, colVals, colVal, panel3, List.insertionSort, List.orderedInsert, hfl]
  · norm_num [quantile, colVals, colVal, panel3, List.insertionSort, List.orderedInsert, hfu]

/-! ## Market returns (C8) -/

theorem mem_of_mem_dedupFirst {α : Type} [DecidableEq α] :
    ∀ (l : List α) (x : α), x ∈ dedupFirst l → x ∈ l := by
  intro l
  induction l with
  | nil => intro x hx; rw [dedupFirst] at hx; exact absurd hx (List.not_mem_nil x)
  | cons a rest ih =>
    intro x hx
    rw [dedupFirst] at hx
    rcases List.mem_cons.mp hx with rfl | h2
    · exact List.mem_cons_self _ _
    · exact List.mem_cons_of_mem _ (ih x (List.mem_of_mem_filter h2))

theorem dedupFirst_eq_self {α : Type} [DecidableEq α] (l : List α) (h : l.Nodup) :
    dedupFirst l = l := by
  induction l with
  | nil => rw [dedupFirst]
  | cons a rest ih =>
    rw [dedupFirst]
    have ha : a ∉ rest := (List.nodup_cons.mp h).1
    rw [ih (List.nodup_cons.mp h).2]
    have hf : rest.filter (fun y => y != a) = rest := by
      apply List.filter_eq_self.mpr
      intro x hx
      exact bne_iff_ne.mpr fun he => ha (he ▸ hx)
    rw [hf]

theorem lastPriceIn_of_nodup (rows : List (ℤ × ℚ)) (h : (rows.map Prod.fst).Nodup) :
    ∀ p ∈ rows, lastPriceIn rows p.1 = some p.2 := by
  induction rows with
  | nil => simp
  | cons r rest ih =>
    have hr : r.1 ∉ rest.map Prod.fst := (List.nodup_cons.mp h).1
    intro p hp
    rcases List.mem_cons.mp hp with rfl | hp'
    · have hf : rest.filter (fun q => q.1 == p.1) = [] := by
        apply List.filter_eq_nil_iff.mpr
        intro q hq hbe
        exact hr (List.mem_map.mpr ⟨q, hq, beq_iff_eq.mp hbe⟩)
      unfold lastPriceIn
      rw [List.filter_cons_of_pos (by simp), hf]
      rfl
    · have hne : (r.1 == p.1) = false := by
        apply beq_eq_false_iff_ne.mpr
        intro he
        exact hr (List.mem_map.mpr ⟨p, hp', he.symm⟩)
      have htail : lastPriceIn rest p.1 = some p.2 :=
        ih (List.nodup_cons.mp h).2 p hp'
      unfold lastPriceIn at htail ⊢
      rw [List.filter_cons_of_neg (by simp [hne])]
      exact htail

/-- Counterexample to C8 as stated: with two observations in one month, the
code emits a within-month row-over-row return for the first (and only)
observed month, while the claim demands that the first period be absent. -/
theorem market_returns_monthly_refuted :
    load_market_returns mrowsDup ≠ marketSpecOut mrowsDup := by
  decide

/-- Claim C8 (amended): when the input has at most one observation per month
and months strictly increase row over row, the output is exactly the claimed
series — one return per observed month after the first, the percent change
of that month's (only, hence last) price against the previous observed
month's. -/
theorem market_returns_under_unique_months (rows : List (ℤ × ℚ))
    (h : (rows.map Prod.fst).Pairwise (· < ·)) :
    load_market_returns rows = marketSpecOut rows := by
  have hnd : (rows.map Prod.fst).Nodup := h.imp ne_of_lt
  have hded : dedupFirst (rows.map Prod.fst) = rows.map Prod.fst :=
    dedupFirst_eq_self _ hnd
  unfold marketSpecOut load_market_returns
  rw [hded, ← List.map_tail, List.zip_map, List.map_map]
  apply List.map_congr_left
  intro p hp
  have hp1 : p.1 ∈ rows := (List.of_mem_zip hp).1
  have hp2 : p.2 ∈ rows := List.mem_of_mem_tail (List.of_mem_zip hp).2
  have l1 := lastPriceIn_of_nodup rows hnd p.1 hp1
  have l2 := lastPriceIn_of_nodup rows hnd p.2 hp2
  simp [Function.comp, l1, l2]

/-- Witness for C8 (amended) on two single-observation months. -/
theorem market_returns_under_unique_months_witness :
    (mrowsOk.map Prod.fst).Pairwise (· < ·) ∧
      load_market_returns mrowsOk = marketSpecOut mrowsOk :=
  ⟨by decide, market_returns_under_unique_months mrowsOk (by decide)⟩

/-! ## Panel keys (C9) -/

instance : IsTotal RawSec leKey :=
  ⟨fun a b => by unfold leKey; omega⟩

instance : IsTrans RawSec leKey :=
  ⟨fun a b c hab hbc => by unfold leKey at hab hbc ⊢; omega⟩

/-- Counterexample to C9 as stated: `sort_index()` does not deduplicate, so
two input rows with an identical (gvkey, iid, data_ym) key stay in the panel
and the key is not unique. -/
theorem panel_keys_refuted : ¬ panelKeysOk recsDup := by
  intro h
  exact absurd h.1 (by decide)

/-- Claim C9 (amended): when no two (complete) input records share a
(gvkey, iid, data_ym) key, the sorted panel has pairwise-distinct keys and,
within each (gvkey, iid) series, strictly increasing periods. -/
theorem panel_sorted_unique (recs : List RawSec) (h : (recs.map keyOf).Nodup) :
    panelKeysOk recs := by
  have hperm : (panelOf recs).Perm recs := List.perm_insertionSort leKey recs
  have hnd : ((panelOf recs).map keyOf).Nodup := ((hperm.map keyOf).nodup_iff).mpr h
  refine ⟨hnd, ?_⟩
  have hsorted : List.Pairwise leKey (panelOf recs) :=
    List.sorted_insertionSort leKey recs
  have hpne : (panelOf recs).Pairwise fun a b => keyOf a ≠ keyOf b :=
    List.pairwise_map.mp hnd
  apply (hsorted.and hpne).imp
  intro a b hab hg hi
  obtain ⟨hle, hne⟩ := hab
  have hymne : a.ym ≠ b.ym := fun he => hne (by unfold keyOf; rw [hg, hi, he])
  unfold leKey at hle
  omega

/-- Witness for C9 (amended) on two distinct-month rows of one series. -/
theorem panel_sorted_unique_witness :
    (recsOk.map keyOf).Nodup ∧ panelKeysOk recsOk :=
  ⟨by decide, panel_sorted_unique recsOk (by decide)⟩

/-! ## Yearly income-statement rate (C7) -/

theorem foldl_pickLater (l : List ExObs) (a : ExObs) :
    ∃ o, l.foldl pickLater (some a) = some o ∧ (o = a ∨ o ∈ l) ∧ a.dy ≤ o.dy ∧
      ∀ x ∈ l, x.dy ≤ o.dy := by
  induction l generalizing a with
  | nil => exact ⟨a, rfl, Or.inl rfl, le_refl _, by simp⟩
  | cons x l ih =>
    rw [List.foldl_cons]
    by_cases hax : a.dy ≤ x.dy
    · rw [show pickLater (some a) x = some x from by simp [pickLater, hax]]
      obtain ⟨o, h1, h2, h3, h4⟩ := ih x
      refine ⟨o, h1, ?_, le_trans hax h3, ?_⟩
      · rcases h2 with rfl | hm
        · exact Or.inr (List.mem_cons_self _ _)
        · exact Or.inr (List.mem_cons_of_mem _ hm)
      · intro z hz
        rcases List.mem_cons.mp hz with rfl | hz'
        · exact h3
        · exact h4 z hz'
    · rw [show pickLater (some a) x = some a from by simp [pickLater, hax]]
      obtain ⟨o, h1, h2, h3, h4⟩ := ih a
      refine ⟨o, h1, ?_, h3, ?_⟩
      · rcases h2 with rfl | hm
        · exact Or.inl rfl
        · exact Or.inr (List.mem_cons_of_mem _ hm)
      · intro z hz
        rcases List.mem_cons.mp hz with rfl | hz'
        · exact le_trans (le_of_not_le hax) h3
        · exact h4 z hz'

theorem monthLast_spec (obs : List ExObs) (c : String) (yy mm : ℤ)
    (h : monthObs obs c yy mm ≠ []) :
    ∃ o, monthLast obs c yy mm = some o ∧ o ∈ monthObs obs c yy mm ∧
      ∀ x ∈ monthObs obs c yy mm, x.dy ≤ o.dy := by
  unfold monthLast
  cases hG : monthObs obs c yy mm with
  | nil => exact absurd hG h
  | cons a l =>
    rw [List.foldl_cons, show pickLater none a = some a from rfl]
    obtain ⟨o, h1, h2, h3, h4⟩ := foldl_pickLater l a
    refine ⟨o, h1, ?_, ?_⟩
    · rcases h2 with rfl | hm
      · exact List.mem_cons_self _ _
      · exact List.mem_cons_of_mem _ hm
    · intro x hx
      rcases List.mem_cons.mp hx with rfl | hx'
      · exact h3
      · exact h4 x hx'

theorem monthObs_of_monthsOfYear (obs : List ExObs) (c : String) (yy mm : ℤ)
    (h : mm ∈ monthsOfYear obs c yy) : monthObs obs c yy mm ≠ [] := by
  unfold monthsOfYear at h
  have h2 := mem_of_mem_dedupFirst _ _ h
  obtain ⟨o, ho, hmo⟩ := List.mem_map.mp h2
  have hf := List.mem_filter.mp ho
  intro hnil
  have hmem : o ∈ monthObs obs c yy mm := by
    apply List.mem_filter.mpr
    refine ⟨hf.1, ?_⟩
    have hb := hf.2
    simp only [Bool.and_eq_true, beq_iff_eq] at hb ⊢
    exact ⟨⟨hb.1, hb.2⟩, hmo⟩
  rw [hnil] at hmem
  exact absurd hmem (List.not_mem_nil o)

/-- Counterexample to C7 as stated: with two January observations (rates 1
then 3) and one February observation (rate 5), the code averages the
month-end rates (3 and 5, giving 4), not all observations (giving 3). -/
theorem yearly_is_rate_refuted :
    y_is_toUSD cObs "EUR" 2020 ≠ y_is_toUSD_claim cObs "EUR" 2020 := by
  have hms : monthsOfYear cObs "EUR" 2020 = [1, 2] := by decide
  have hm1 : monthLast cObs "EUR" 2020 1 = some ⟨"EUR", 2020, 1, 20, 3, 3⟩ := by decide
  have hm2 : monthLast cObs "EUR" 2020 2 = some ⟨"EUR", 2020, 2, 10, 5, 5⟩ := by decide
  have h1 : y_is_toUSD cObs "EUR" 2020 = some 4 := by
    unfold y_is_toUSD
    rw [hms, if_neg (by decide)]
    rw [show ([1, 2] : List ℤ).map (fun mm =>
        ((monthLast cObs "EUR" 2020 mm).map ExObs.toUSD).getD 0) =
      [3, 5] from by rw [List.map_cons, List.map_cons, List.map_nil, hm1, hm2]; rfl]
    norm_num
  have hxs : (cObs.filter fun o => o.curd == "EUR" && o.yr == 2020).map ExObs.toUSD =
      [1, 3, 5] := by decide
  have h2 : y_is_toUSD_claim cObs "EUR" 2020 = some 3 := by
    unfold y_is_toUSD_claim
    rw [hxs, if_neg (by decide)]
    norm_num
  rw [h1, h2]
  simp

/-- Claim C7 (amended): for a (currency, year) with observations, the yearly
income-statement rate is the average, over the year's observed months, of
each month's chronologically-last observation's rate. -/
theorem yearly_is_rate_monthly_avg (obs : List ExObs) (c : String) (yy : ℤ)
    (h : monthsOfYear obs c yy ≠ []) :
    y_is_toUSD obs c yy =
      some (((monthsOfYear obs c yy).map fun mm =>
        ((monthLast obs c yy mm).map ExObs.toUSD).getD 0).sum /
        (monthsOfYear obs c yy).length) ∧
    ∀ mm ∈ monthsOfYear obs c yy, ∃ o, monthLast obs c yy mm = some o ∧
      o ∈ monthObs obs c yy mm ∧ ∀ x ∈ monthObs obs c yy mm, x.dy ≤ o.dy := by
  constructor
  · unfold y_is_toUSD
    rw [if_neg h]
  · intro mm hmm
    exact monthLast_spec obs c yy mm (monthObs_of_monthsOfYear obs c yy mm hmm)

/-- Witness for C7 (amended) at the concrete observation list. -/
theorem yearly_is_rate_monthly_avg_witness :
    monthsOfYear cObs "EUR" 2020 ≠ [] ∧
      y_is_toUSD cObs "EUR" 2020 =
        some (((monthsOfYear cObs "EUR" 2020).map fun mm =>
          ((monthLast cObs "EUR" 2020 mm).map ExObs.toUSD).getD 0).sum /
          (monthsOfYear cObs "EUR" 2020).length) :=
  ⟨by decide, (yearly_is_rate_monthly_avg cObs "EUR" 2020 (by decide)).1⟩

/-! ## Fundamentals consolidation (C6) -/

theorem dedupFirst_nodup {α : Type} [DecidableEq α] (l : List α) :
    (dedupFirst l).Nodup := by
  induction l with
  | nil => rw [dedupFirst]; exact List.nodup_nil
  | cons a rest ih =>
    rw [dedupFirst]
    apply List.nodup_cons.mpr
    constructor
    · intro hmem
      exact (bne_iff_ne.mp (List.mem_filter.mp hmem).2) rfl
    · exact ih.filter _

theorem filter_length_le_one {α : Type} (p : α → Bool) (l : List α)
    (h : l.Pairwise fun a b => p a = true → p b = true → False) :
    (l.filter p).length ≤ 1 := by
  induction l with
  | nil => simp
  | cons x l ih =>
    have hx := List.pairwise_cons.mp h
    by_cases hpx : p x = true
    · rw [List.filter_cons_of_pos hpx]
      have hnil : l.filter p = [] := by
        apply List.filter_eq_nil_iff.mpr
        intro y hy hpy
        exact hx.1 y hy hpx hpy
      rw [hnil]
      simp
    · rw [List.filter_cons_of_neg (by simpa using hpx)]
      exact ih hx.2

/-- Counterexample to C6 as stated: with duplicate 2001 reports whose first
lacks revenue, the surviving normalized row mixes the two reports (assets
from the first, revenue from the second), so it does not equal the first
record's normalization field for field. -/
theorem fundamentals_keep_first_refuted :
    ¬ fundKeepsFirst cInput ratesOne ratesOne 1 2001 := by
  intro h
  have h1 : afterDrop cInput = [rec2000, cCons2001] := by decide
  have hconv : convertedL cInput ratesOne ratesOne = [cNorm2000, cNorm2001] := by
    unfold convertedL
    rw [h1]
    show [convertRec ratesOne ratesOne rec2000, convertRec ratesOne ratesOne cCons2001] = _
    norm_num [convertRec, omul, ratesOne, rec2000, cCons2001, cNorm2000, cNorm2001]
  have hout : outputRowFor cInput ratesOne ratesOne 1 2001 = some cNorm2001 := by
    unfold outputRowFor fundamentalsOut
    rw [hconv]
    decide
  have hfirst : firstRecFor cInput 1 2001 = some recA := by decide
  have hh := h.1
  rw [hout, hfirst] at hh
  have heq := Option.some.inj hh
  have hrevt := congrArg NormRec.revt heq
  rw [show (convertRec ratesOne ratesOne recA).revt = none from rfl] at hrevt
  exact Option.noConfusion (show some (5 : ℚ) = none from hrevt)

/-- Claim C6 (amended): consolidation takes, per field, the first
non-missing value of the pair's reports in input order, so when the first
report is complete the consolidated record is exactly that report; and the
normalized output holds at most one row per (entity, fiscal year) pair. -/
theorem fundamentals_first_nonnull (input : List FundRec)
    (bsRate isRate : String → ℤ → Option ℚ) (g y : ℤ) :
    (∀ r0, firstRecFor input g y = some r0 → completeRec r0 = true →
      consolidate input (g, y) = r0) ∧
    ((fundamentalsOut input bsRate isRate).filter
      (fun r => r.gvkey == g && r.fiscalyear == y)).length ≤ 1 := by
  constructor
  · intro r0 h0 hcomp
    unfold firstRecFor at h0
    cases hG : fundGroup input (g, y) with
    | nil => rw [hG] at h0; exact Option.noConfusion h0
    | cons r t =>
      rw [hG] at h0
      have hr : r = r0 := by simpa using h0
      subst hr
      have hmem : r ∈ fundGroup input (g, y) := by
        rw [hG]; exact List.mem_cons_self _ _
      have hkey := (List.mem_filter.mp hmem).2
      simp only [Bool.and_eq_true, beq_iff_eq] at hkey
      unfold completeRec at hcomp
      simp only [Bool.and_eq_true, Option.isSome_iff_exists] at hcomp
      obtain ⟨⟨⟨⟨⟨c0, hc0⟩, ⟨a0, ha0⟩⟩, ⟨e0, he0⟩⟩, ⟨o0, ho0⟩⟩, ⟨v0, hv0⟩⟩ := hcomp
      unfold consolidate
      rw [hG]
      rcases r with ⟨rg, ry, rc, ra, re, ro, rv⟩
      simp only at hc0 ha0 he0 ho0 hv0 hkey
      simp [List.findSome?_cons, hc0, ha0, he0, ho0, hv0, hkey.1, hkey.2]
  · have h1 : (fundKeys input).Pairwise (· ≠ ·) := by
      unfold fundKeys
      exact ((List.perm_insertionSort leZZ _).nodup_iff).mpr (dedupFirst_nodup _)
    have h2 : (consolidated input).Pairwise
        (fun r1 r2 : FundRec => (r1.gvkey, r1.fiscalyear) ≠ (r2.gvkey, r2.fiscalyear)) := by
      unfold consolidated
      rw [List.pairwise_map]
      refine h1.imp fun {k1 k2} hne he => hne ?_
      exact Prod.ext (congrArg Prod.fst he) (congrArg Prod.snd he)
    have h3 := h2.filter completeRec
    have h4 : (convertedL input bsRate isRate).Pairwise
        (fun r1 r2 : NormRec => (r1.gvkey, r1.fiscalyear) ≠ (r2.gvkey, r2.fiscalyear)) := by
      unfold convertedL
      rw [List.pairwise_map]
      refine h3.imp fun {r1 r2} hne he => hne ?_
      exact Prod.ext (congrArg Prod.fst he) (congrArg Prod.snd he)
    have hEnum : (convertedL input bsRate isRate).enum.Pairwise
        (fun p q : ℕ × NormRec =>
          (p.2.gvkey, p.2.fiscalyear) ≠ (q.2.gvkey, q.2.fiscalyear)) := by
      rw [← List.enum_map_snd (convertedL input bsRate isRate)] at h4
      exact (@List.pairwise_map (ℕ × NormRec) NormRec Prod.snd
        (fun r1 r2 : NormRec => (r1.gvkey, r1.fiscalyear) ≠ (r2.gvkey, r2.fiscalyear))
        (convertedL input bsRate isRate).enum).mp h4
    have h5 : (fundamentalsOut input bsRate isRate).Pairwise
        (fun r1 r2 : NormRec => (r1.gvkey, r1.fiscalyear) ≠ (r2.gvkey, r2.fiscalyear)) := by
      unfold fundamentalsOut
      exact List.pairwise_map.mpr
        (hEnum.filter (fun p => fundRowKept (convertedL input bsRate isRate) p.1))
    apply filter_length_le_one
    refine h5.imp fun {r1 r2} hne hp1 hp2 => ?_
    simp only [Bool.and_eq_true, beq_iff_eq] at hp1 hp2
    exact hne (by rw [hp1.1, hp1.2, hp2.1, hp2.2])

/-- Witness for C6 (amended): the 2000 pair has a complete first (and only)
report, so consolidation returns it unchanged; and the duplicate 2001 pair
contributes at most one output row. -/
theorem fundamentals_first_nonnull_witness :
    firstRecFor cInput 1 2000 = some rec2000 ∧ completeRec rec2000 = true ∧
      consolidate cInput (1, 2000) = rec2000 ∧
      ((fundamentalsOut cInput ratesOne ratesOne).filter
        (fun r => r.gvkey == 1 && r.fiscalyear == 2001)).length ≤ 1 := by
  have h1 : firstRecFor cInput 1 2000 = some rec2000 := by decide
  have h2 : completeRec rec2000 = true := by decide
  exact ⟨h1, h2,
    (fundamentals_first_nonnull cInput ratesOne ratesOne 1 2000).1 rec2000 h1 h2,
    (fundamentals_first_nonnull cInput ratesOne ratesOne 1 2001).2⟩

end Project
